import Mathlib

/-!
Verification of the multi-protocol on-chain quote aggregation and ranking
engine of the DEX-quotes repository.

Shallow embedding conventions:
* token amounts (JS `bigint`) are modelled as `ℤ`;
* JS floating-point intermediates (price-impact math, percentage math) are
  modelled as exact rationals `ℚ`; `Math.floor` is `Int.floor`,
  `Math.round` is `fun x => ⌊x + 1/2⌋` (JS rounds half towards +∞),
  JS `bigint` division (truncation towards zero) is `Int.tdiv`;
* on-chain RPC results are supplied by a `ChainOracle` record of functions:
  each network-dependent quoter call is a field returning `Except String ℤ`
  (normal return vs. thrown error), so the control flow of the service is
  embedded exactly while the remote node's answers stay parameters;
* wall-clock timestamps and log-sink writes are dropped: they do not feed
  back into any computed value.
-/

namespace DexQuotes

/-- Token descriptor as in the `PoolInfo.tokens.base/quote` records. -/
structure TokenInfo where
  address : String
  symbol : String
  decimals : ℕ
deriving DecidableEq, Repr

/-- The pair of tokens of a pool. -/
structure PoolTokens where
  base : TokenInfo
  quote : TokenInfo
deriving DecidableEq, Repr

/-- The `PoolInfo` registry record (shape of `coinGeckoPoolService`'s
`PoolInfo` as consumed by `onChainQuoteService`). -/
structure PoolInfo where
  address : String
  name : String
  dex : String
  network : String
  fee_tier : Option String
  volume_24h : ℚ
  liquidity_usd : ℚ
  tokens : PoolTokens
deriving DecidableEq, Repr

/-- Shape of `TokenPair` from `src/types/api.ts` (the fields the engine reads). -/
structure TokenPair where
  id : String
  name : String
  sellToken : TokenInfo
  buyToken : TokenInfo
  sellAmount : ℤ
deriving DecidableEq, Repr

/-- Shape of `OnChainQuote` from `onChainQuoteService.ts`.  `timestamp` is dropped
(wall clock only); numeric strings are carried as their numeric values. -/
structure OnChainQuote where
  pool : PoolInfo
  inputAmount : ℤ
  outputAmount : ℤ
  pricePerToken : ℚ
  executionPrice : ℚ
  success : Bool
  error : Option String := none
  protocolDetails : Option String := none
deriving DecidableEq, Repr

/-- Shape of `PoolRanking` from `onChainQuoteService.ts`. -/
structure PoolRanking where
  rank : ℕ
  pool : PoolInfo
  quote : OnChainQuote
  priceAdvantage : ℚ
deriving DecidableEq, Repr

/-- Shape of `SwapSimulation` from `onChainQuoteService.ts`. -/
structure SwapSimulation where
  quotes : List OnChainQuote
  bestQuote : Option OnChainQuote
  rankings : List PoolRanking
deriving DecidableEq, Repr

/-! ### Rate limiter (`src/utils/rateLimiter.ts`, class `AlchemyRateLimiter`) -/

/-- Shape of the error objects inspected by `executeWithRetry`
(`error?.status` and `error?.code`). -/
structure RpcError where
  status : Option ℕ
  code : Option String
deriving DecidableEq, Repr

/-- The rate-limit test of `executeWithRetry`:
`error?.status === 429 || error?.code === 'RATE_LIMIT_EXCEEDED'`. -/
def isRateLimitSignal (e : RpcError) : Prop :=
  e.status = some 429 ∨ e.code = some "RATE_LIMIT_EXCEEDED"

instance (e : RpcError) : Decidable (isRateLimitSignal e) := by
  unfold isRateLimitSignal; infer_instance

/-- Backoff ladder `retryDelays = [1000, 2000, 4000, 8000, 16000]` (milliseconds). -/
def retryDelays : List ℕ := [1000, 2000, 4000, 8000, 16000]

/-- Model of `AlchemyRateLimiter.executeWithRetry`.  `calls n` is the outcome of the
`n`-th invocation of the wrapped function `fn`.  The result is the value or
error surfaced to the caller, paired with the list of backoff delays that
were slept through (in order). -/
def executeWithRetry {α : Type} (calls : ℕ → Except RpcError α) (attempt : ℕ) :
    Except RpcError α × List ℕ :=
  match calls attempt with
  | .ok v => (.ok v, [])
  | .error e =>
    if h : isRateLimitSignal e ∧ attempt < retryDelays.length then
      let r := executeWithRetry calls (attempt + 1)
      (r.1, retryDelays.get ⟨attempt, h.2⟩ :: r.2)
    else
      (.error e, [])
termination_by retryDelays.length - attempt
decreasing_by omega

/-! ### ZeroX aggregator fee netting (`zeroXQuoteService.ts`) -/

/-- Model of `ZeroXQuoteService.calculateNetQuoteAmount`.  `buyAmount` is the
aggregator's headline buy amount, `zeroExFeeAmount` the optional fee
(`none` models an absent fee field; both are decimal strings of bigints in
the source, carried here as their values). -/
def calculateNetQuoteAmount (buyAmount : ℤ) (zeroExFeeAmount : Option ℤ) : ℤ :=
  match zeroExFeeAmount with
  | none => buyAmount
  | some fee => if fee = 0 then buyAmount else buyAmount + fee

/-! ### V3 tick alignment (manual fallback inside `getUniswapV3Quote`) -/

/-- Constant `MIN_TICK` from `getUniswapV3Quote`. -/
def MIN_TICK : ℤ := -887272

/-- Constant `MAX_TICK` from `getUniswapV3Quote`. -/
def MAX_TICK : ℤ := 887272

/-- Model of JS `Math.round` (half rounds towards +∞). -/
def jsRound (q : ℚ) : ℤ := ⌊q + 1 / 2⌋

/-- Value `Math.round(rawTick / tickSpacing) * tickSpacing`: the multiple of the
spacing nearest to the raw tick (ties upward). -/
def nearestAlignedTick (rawTick tickSpacing : ℤ) : ℤ :=
  jsRound ((rawTick : ℚ) / (tickSpacing : ℚ)) * tickSpacing

/-- The manual tick-alignment fallback of `getUniswapV3Quote`:
`Math.max(MIN_TICK, Math.min(MAX_TICK, aligned))`. -/
def alignTickManual (rawTick tickSpacing : ℤ) : ℤ :=
  max MIN_TICK (min MAX_TICK (nearestAlignedTick rawTick tickSpacing))

/-! ### Shared helpers of the quoters -/

/-- The decimal-adjusted 1:1 conversion pattern repeated verbatim in the
Curve/Balancer/Fluid fallbacks:
`decimalDiff > 0 ? amount * 10**diff : decimalDiff < 0 ? amount / 10**|diff| : amount`
(JS `bigint` division truncates towards zero, hence `Int.tdiv`). -/
def decimalAdjust (amount : ℤ) (decimalDiff : ℤ) : ℤ :=
  if 0 < decimalDiff then amount * 10 ^ decimalDiff.toNat
  else if decimalDiff < 0 then amount.tdiv (10 ^ (-decimalDiff).toNat)
  else amount

/-- The `fallbackPrices` table (with its `|| 1` default), identical in
`getQuoteForPoolWithAmount`, `calculateInputAmount` and
`getFluidEstimatedQuote`. -/
def fallbackPriceOf (symbol : String) : ℚ :=
  if symbol = "WETH" then 4700
  else if symbol = "ETH" then 4700
  else if symbol = "USDT" then 1
  else if symbol = "USDC" then 1
  else if symbol = "WBTC" then 115000
  else if symbol = "UNI" then 18
  else if symbol = "LINK" then 25
  else if symbol = "USDe" then 1
  else if symbol = "DAI" then 1
  else 1

/-- JS `String.prototype.toLowerCase` on the ASCII strings the service
compares (kernel-reducible restatement of `String.toLower`). -/
def jsToLowerCase (s : String) : String := ⟨s.data.map Char.toLower⟩

/-- On-chain call outcomes.  Each field is one network-dependent quoter
call of the service: the value is what the call returns, `.error` is what
it throws (after the rate-limiter gave up, a revert, a decode failure, …).
`zeroXQuote` models `ZeroXQuoteService.getZeroXQuote` (quote plus
`protocolDetails` string, or `null`). -/
structure ChainOracle where
  v2AmountsOut : PoolInfo → ℤ → Except String ℤ
  v3Quote : PoolInfo → ℤ → Except String ℤ
  v4Quote : PoolInfo → ℤ → Except String ℤ
  curveGetDy : PoolInfo → ℤ → Except String ℤ
  fluidRealPriceImpact : PoolInfo → ℤ → Except String ℤ
  fluidLiveQuote : PoolInfo → ℤ → Except String ℤ
  zeroXQuote : TokenPair → Option (OnChainQuote × String)

/-! ### Fluid quoter (`getFluidQuote` and its tiers) -/

/-- The three quoting tiers of the Fluid pipeline, named after the source
methods: `getFluidRealPriceImpactQuote` (reserve-based price impact),
`getFluidLiveQuote` (swap simulation decoding `FluidDexSwapResult`),
`getFluidEstimatedQuote` (static estimation). -/
inductive FluidStrategy where
  | realPriceImpact
  | liveQuote
  | estimation
deriving DecidableEq, Repr

/-- Table `const stablecoins` of the source: USDC, USDT, DAI, USDe. -/
def stablecoins : List String := ["USDC", "USDT", "DAI", "USDe"]

/-- Model of `getFluidEstimatedQuote` (the terminal estimation tier; stablecoin
pairs get a fee-adjusted decimal 1:1, other pairs a reference-price-ratio
conversion with size-dependent slippage).  Total by construction: the
floating-point intermediates are exact rationals here. -/
def getFluidEstimatedQuote (pool : PoolInfo) (inputAmount : ℤ) : ℤ :=
  if pool.tokens.base.symbol ∈ stablecoins ∧ pool.tokens.quote.symbol ∈ stablecoins then
    -- baseFee 0.01% + slippageEstimate 0.01%  ⇒  totalFeeRate = 0.9998
    let totalFeeRate : ℚ := 1 - (1 / 10000 + 1 / 10000)
    let feeAdjustedAmount : ℤ := ⌊(inputAmount : ℚ) * totalFeeRate⌋
    decimalAdjust feeAdjustedAmount
      ((pool.tokens.quote.decimals : ℤ) - (pool.tokens.base.decimals : ℤ))
  else
    let basePrice := fallbackPriceOf pool.tokens.base.symbol
    let quotePrice := fallbackPriceOf pool.tokens.quote.symbol
    let inputAmountFloat : ℚ := (inputAmount : ℚ) / 10 ^ pool.tokens.base.decimals
    let swapSizeUSD := inputAmountFloat * basePrice
    let slippageRate : ℚ :=
      if swapSizeUSD > 1000000 then 5 / 1000
      else if swapSizeUSD > 100000 then 1 / 1000
      else 1 / 10000
    let totalFeeRate : ℚ := 1 - (1 / 10000 + slippageRate)
    ⌊inputAmountFloat * (basePrice / quotePrice) * totalFeeRate *
      10 ^ pool.tokens.quote.decimals⌋

/-- The routing condition of `getFluidQuote`: only the confirmed
USDe→USDT pool goes through the enhanced multi-tier pipeline. -/
def isEnhancedFluidPool (pool : PoolInfo) : Bool :=
  jsToLowerCase pool.address == "0xf063bd202e45d6b2843102cb4ece339026645d4a"
    && pool.tokens.base.symbol == "USDe"
    && pool.tokens.quote.symbol == "USDT"

/-- Model of `getFluidQuote`: for the enhanced pool, try
`getFluidRealPriceImpactQuote`, on a throw try `getFluidLiveQuote`, on a
throw fall back to `getFluidEstimatedQuote`; every other Fluid pool goes
straight to the estimation.  Returns the output amount together with the
trace of tiers attempted, in order.  (The outer `catch` of the source is
dead code here: the estimation tier is total.) -/
def getFluidQuote (chain : ChainOracle) (pool : PoolInfo) (inputAmount : ℤ) :
    ℤ × List FluidStrategy :=
  if isEnhancedFluidPool pool then
    match chain.fluidRealPriceImpact pool inputAmount with
    | .ok amt => (amt, [.realPriceImpact])
    | .error _ =>
      match chain.fluidLiveQuote pool inputAmount with
      | .ok amt => (amt, [.realPriceImpact, .liveQuote])
      | .error _ =>
        (getFluidEstimatedQuote pool inputAmount,
         [.realPriceImpact, .liveQuote, .estimation])
  else
    (getFluidEstimatedQuote pool inputAmount, [.estimation])

/-! ### Remaining quoters and the orchestrator -/

/-- Model of `getBalancerQuote`: purely local decimal-adjusted 1:1 estimate (its
`try` body cannot throw, and the `catch` computes the same value). -/
def getBalancerQuote (pool : PoolInfo) (inputAmount : ℤ) : ℤ :=
  decimalAdjust inputAmount
    ((pool.tokens.quote.decimals : ℤ) - (pool.tokens.base.decimals : ℤ))

/-- Model of `getCurveQuote`: `get_dy` through the oracle, the runaway-output sanity
bound, and the decimal-adjusted 1:1 fallback when the call chain throws. -/
def getCurveQuote (chain : ChainOracle) (pool : PoolInfo) (inputAmount : ℤ) : ℤ :=
  match chain.curveGetDy pool inputAmount with
  | .ok amountOut =>
    let decimalDiff : ℤ := (pool.tokens.quote.decimals : ℤ) - (pool.tokens.base.decimals : ℤ)
    let maxReasonableOutput : ℚ := (inputAmount : ℚ) * (10 : ℚ) ^ decimalDiff * 1000
    if (amountOut : ℚ) > maxReasonableOutput then
      inputAmount * 10 ^ (max 0 decimalDiff).toNat
    else amountOut
  | .error _ =>
    decimalAdjust inputAmount
      ((pool.tokens.quote.decimals : ℤ) - (pool.tokens.base.decimals : ℤ))

/-- The `switch (pool.dex)` of `getQuoteForPoolWithAmount` for the
amount-returning arms (the `zerox` arm returns a full quote and is handled
in `getQuoteForPoolWithAmount` itself). -/
def quoterDispatch (chain : ChainOracle) (pool : PoolInfo) (inputAmount : ℤ) :
    Except String ℤ :=
  match pool.dex with
  | "uniswap_v2" => chain.v2AmountsOut pool inputAmount
  | "sushiswap" => chain.v2AmountsOut pool inputAmount
  | "uniswap_v3" => chain.v3Quote pool inputAmount
  | "uniswap_v4" => chain.v4Quote pool inputAmount
  | "curve" => .ok (getCurveQuote chain pool inputAmount)
  | "balancer" => .ok (getBalancerQuote pool inputAmount)
  | "fluid" => .ok (getFluidQuote chain pool inputAmount).1
  | other => .error ("Unsupported DEX: " ++ other)

/-- Model of `getQuoteForPoolWithAmount`: dispatch on the protocol tag, normalise a
returned amount into a successful quote, convert any thrown failure into a
failed quote with `outputAmount = 0`. -/
def getQuoteForPoolWithAmount (chain : ChainOracle) (pool : PoolInfo)
    (inputAmount : ℤ) (tokenPair : TokenPair) : OnChainQuote :=
  if pool.dex = "zerox" then
    match chain.zeroXQuote tokenPair with
    | some res => { res.1 with protocolDetails := some res.2 }
    | none =>
      -- `throw new Error('ZeroX quote failed')`, caught by the same function's catch
      { pool := pool, inputAmount := inputAmount, outputAmount := 0,
        pricePerToken := 0, executionPrice := 0, success := false,
        error := some "ZeroX quote failed" }
  else
    match quoterDispatch chain pool inputAmount with
    | .ok outputAmount =>
      let inputAmountFormatted : ℚ := (inputAmount : ℚ) / 10 ^ pool.tokens.base.decimals
      let outputAmountFormatted : ℚ := (outputAmount : ℚ) / 10 ^ pool.tokens.quote.decimals
      let basePrice := fallbackPriceOf tokenPair.sellToken.symbol
      { pool := pool, inputAmount := inputAmount, outputAmount := outputAmount,
        pricePerToken := outputAmountFormatted / inputAmountFormatted,
        executionPrice := inputAmountFormatted * basePrice / outputAmountFormatted,
        success := true }
    | .error e =>
      { pool := pool, inputAmount := inputAmount, outputAmount := 0,
        pricePerToken := 0, executionPrice := 0, success := false,
        error := some e }

/-! ### Ranking engine (`calculateRankings`) -/

/-- Ghost position tags (`tagFrom 0 l` pairs every element with its
0-based position); only used to state and prove stability of the sort, the
tags are erased again in `calculateRankings`. -/
def tagFrom {α : Type} (n : ℕ) : List α → List (ℕ × α)
  | [] => []
  | a :: l => (n, a) :: tagFrom (n + 1) l

/-- The sort order of `calculateRankings`'s comparator
`(a, b) => b.outputAmount - a.outputAmount` (descending by output). -/
def quoteGE (a b : ℕ × OnChainQuote) : Prop :=
  b.2.outputAmount ≤ a.2.outputAmount

instance : DecidableRel quoteGE := fun _ _ => Int.decLe _ _

instance : IsTotal (ℕ × OnChainQuote) quoteGE :=
  ⟨fun a b => (le_total b.2.outputAmount a.2.outputAmount).imp id id⟩

instance : IsTrans (ℕ × OnChainQuote) quoteGE :=
  ⟨fun _ _ _ h1 h2 => le_trans h2 h1⟩

/-- The filter-and-sort step of `calculateRankings`
(`quotes.filter(q => q.success && parseFloat(q.outputAmount) > 0).sort(...)`).
JS `Array.prototype.sort` is stable; insertion sort on the position-tagged
list with the descending comparator is exactly that stable sort. -/
def rankedEntries (quotes : List OnChainQuote) : List (ℕ × OnChainQuote) :=
  List.insertionSort quoteGE
    ((tagFrom 0 quotes).filter fun p => p.2.success && decide (0 < p.2.outputAmount))

/-- The per-entry price-advantage computation of `calculateRankings`
(the two `isFinite` guards of the source always hold over `ℚ`). -/
def priceAdvantageCalc (bestOutput worstOutput currentOutput : ℤ) : ℚ :=
  if 0 < worstOutput then
    -- compute, cap at 1000, floor at 0, then snap tiny differences to 0
    if |(currentOutput : ℚ) - (worstOutput : ℚ)| / (bestOutput : ℚ) < 1 / 10000 then 0
    else max 0 (min (((currentOutput : ℚ) - (worstOutput : ℚ)) / (worstOutput : ℚ) * 100) 1000)
  else 0

/-- Model of `calculateRankings`.  The source's two early returns for an empty
input and an empty filtered list both collapse into the `[]` case. -/
def calculateRankings (quotes : List OnChainQuote) : List PoolRanking :=
  match rankedEntries quotes with
  | [] => []
  | x :: xs =>
    let worstOutput := ((x :: xs).getLast (List.cons_ne_nil x xs)).2.outputAmount
    let bestOutput := x.2.outputAmount
    (tagFrom 0 (x :: xs)).map fun kp =>
      { rank := kp.1 + 1, pool := kp.2.2.pool, quote := kp.2.2,
        priceAdvantage := priceAdvantageCalc bestOutput worstOutput kp.2.2.outputAmount }

/-- Model of `simulateSwapsWithAmount`: quote every pool in order, never aborting
the batch (the per-pool `catch` is dead code here because
`getQuoteForPoolWithAmount` is total), then rank. -/
def simulateSwapsWithAmount (chain : ChainOracle) (pools : List PoolInfo)
    (inputAmount : ℤ) (tokenPair : TokenPair) : SwapSimulation :=
  let quotes := pools.map fun pool => getQuoteForPoolWithAmount chain pool inputAmount tokenPair
  let successfulQuotes := quotes.filter fun q => q.success
  let rankings := calculateRankings successfulQuotes
  let bestQuote := match rankings with
    | [] => none
    | r :: _ => some r.quote
  { quotes := quotes, bestQuote := bestQuote, rankings := rankings }

/-! ### Helper lemmas about `tagFrom` and the stable sort -/

theorem tagFrom_map_comp {α β : Type} (f : α → β) :
    ∀ (n : ℕ) (l : List α), (tagFrom n l).map (fun kp => f kp.2) = l.map f
  | _, [] => rfl
  | n, a :: l => by simp [tagFrom, tagFrom_map_comp f (n + 1) l]

theorem tagFrom_map_snd {α : Type} (n : ℕ) (l : List α) :
    (tagFrom n l).map Prod.snd = l := by
  simpa using tagFrom_map_comp id n l

theorem length_tagFrom {α : Type} : ∀ (n : ℕ) (l : List α),
    (tagFrom n l).length = l.length
  | _, [] => rfl
  | n, a :: l => by simp [tagFrom, length_tagFrom (n + 1) l]

theorem getElem_tagFrom {α : Type} :
    ∀ (n : ℕ) (l : List α) (i : ℕ) (hi : i < l.length)
      (hi2 : i < (tagFrom n l).length), (tagFrom n l)[i] = (n + i, l[i]) := by
  intro n l
  induction l generalizing n with
  | nil => intro i hi _; simp at hi
  | cons a l ih =>
    intro i hi hi2
    cases i with
    | zero => simp [tagFrom]
    | succ i =>
      have hi' : i < l.length := Nat.lt_of_succ_lt_succ hi
      have h' := ih (n + 1) i hi' (by simpa [length_tagFrom] using hi')
      simp only [tagFrom, List.getElem_cons_succ]
      rw [h']
      refine Prod.ext ?_ rfl
      simp; omega

theorem le_fst_of_mem_tagFrom {α : Type} :
    ∀ {n : ℕ} {l : List α} {p : ℕ × α}, p ∈ tagFrom n l → n ≤ p.1 := by
  intro n l
  induction l generalizing n with
  | nil => intro p hp; simp [tagFrom] at hp
  | cons a l ih =>
    intro p hp
    rcases (by simpa [tagFrom] using hp : p = (n, a) ∨ p ∈ tagFrom (n + 1) l) with h | h
    · simp [h]
    · exact le_trans (Nat.le_succ n) (ih h)

theorem pairwise_fst_lt_tagFrom {α : Type} :
    ∀ (n : ℕ) (l : List α), (tagFrom n l).Pairwise (fun a b => a.1 < b.1) := by
  intro n l
  induction l generalizing n with
  | nil => exact List.Pairwise.nil
  | cons a l ih =>
    refine List.pairwise_cons.mpr ⟨?_, ih (n + 1)⟩
    intro p hp
    exact lt_of_lt_of_le (Nat.lt_succ_self n) (le_fst_of_mem_tagFrom hp)

theorem mem_tagFrom_of_getElem {α : Type} :
    ∀ (n : ℕ) (l : List α) (i : ℕ) (h : i < l.length), (n + i, l[i]) ∈ tagFrom n l := by
  intro n l
  induction l generalizing n with
  | nil => intro i h; simp at h
  | cons a l ih =>
    intro i h
    cases i with
    | zero => simp [tagFrom]
    | succ i =>
      have hi : i < l.length := Nat.lt_of_succ_lt_succ h
      have h' := ih (n + 1) i hi
      have heq : (n + 1 + i, l[i]) = (n + (i + 1), (a :: l)[i + 1]) := by
        refine Prod.ext ?_ (by simp)
        simp; omega
      rw [tagFrom]
      exact List.mem_cons_of_mem _ (heq ▸ h')

theorem filter_tagFrom_map_snd {α : Type} (P : α → Bool) :
    ∀ (n : ℕ) (l : List α),
      (((tagFrom n l).filter fun p => P p.2).map Prod.snd) = l.filter P
  | _, [] => rfl
  | n, a :: l => by
    by_cases h : P a
    · simp [tagFrom, List.filter_cons, h, filter_tagFrom_map_snd P (n + 1) l]
    · simp [tagFrom, List.filter_cons, h, filter_tagFrom_map_snd P (n + 1) l]

theorem map_fst_succ_tagFrom {α : Type} :
    ∀ (n : ℕ) (l : List α),
      (tagFrom n l).map (fun kp => kp.1 + 1) = List.range' (n + 1) l.length
  | _, [] => rfl
  | n, a :: l => by
    simp [tagFrom, map_fst_succ_tagFrom (n + 1) l, List.range'_succ]

/-- The stability order: strictly better output, or equal output and an
earlier original position. -/
def quoteStrict (a b : ℕ × OnChainQuote) : Prop :=
  b.2.outputAmount < a.2.outputAmount ∨
    (a.2.outputAmount = b.2.outputAmount ∧ a.1 < b.1)

theorem quoteStrict_out_le {a b : ℕ × OnChainQuote} (h : quoteStrict a b) :
    b.2.outputAmount ≤ a.2.outputAmount := by
  rcases h with h | ⟨h, _⟩
  · exact le_of_lt h
  · exact le_of_eq h.symm

theorem pairwise_strict_orderedInsert :
    ∀ (l : List (ℕ × OnChainQuote)) (x : ℕ × OnChainQuote),
      l.Pairwise quoteStrict → (∀ y ∈ l, x.1 < y.1) →
      (List.orderedInsert quoteGE x l).Pairwise quoteStrict := by
  intro l
  induction l with
  | nil => intro x _ _; simp
  | cons y ys ih =>
    intro x hp hx
    have hp' := List.pairwise_cons.mp hp
    by_cases h : quoteGE x y
    · rw [List.orderedInsert, if_pos h]
      refine List.pairwise_cons.mpr ⟨?_, hp⟩
      intro z hz
      have hzy : z.2.outputAmount ≤ y.2.outputAmount := by
        rcases List.mem_cons.mp hz with rfl | hz'
        · exact le_refl _
        · exact quoteStrict_out_le (hp'.1 z hz')
      have hzx : z.2.outputAmount ≤ x.2.outputAmount := le_trans hzy h
      rcases lt_or_eq_of_le hzx with hlt | heq
      · exact Or.inl hlt
      · exact Or.inr ⟨heq.symm, hx z hz⟩
    · rw [List.orderedInsert, if_neg h]
      refine List.pairwise_cons.mpr ⟨?_, ?_⟩
      · intro z hz
        rcases (List.mem_orderedInsert quoteGE).mp hz with rfl | hz'
        · exact Or.inl (lt_of_not_le h)
        · exact hp'.1 z hz'
      · exact ih x hp'.2 fun z hz => hx z (List.mem_cons_of_mem y hz)

theorem pairwise_strict_insertionSort (l : List (ℕ × OnChainQuote))
    (h : l.Pairwise fun a b => a.1 < b.1) :
    (List.insertionSort quoteGE l).Pairwise quoteStrict := by
  induction l with
  | nil => simp
  | cons x xs ih =>
    rw [List.insertionSort]
    refine pairwise_strict_orderedInsert _ x (ih h.of_cons) ?_
    intro y hy
    exact (List.pairwise_cons.mp h).1 y ((List.perm_insertionSort quoteGE xs).subset hy)

/-! ### Lemmas about `rankedEntries` and `calculateRankings` -/

theorem rankedEntries_sorted (l : List OnChainQuote) :
    List.Sorted quoteGE (rankedEntries l) :=
  List.sorted_insertionSort quoteGE _

theorem rankedEntries_pairwise_strict (l : List OnChainQuote) :
    (rankedEntries l).Pairwise quoteStrict :=
  pairwise_strict_insertionSort _ ((pairwise_fst_lt_tagFrom 0 l).filter _)

theorem rankedEntries_perm (l : List OnChainQuote) :
    (rankedEntries l).Perm
      ((tagFrom 0 l).filter fun p => p.2.success && decide (0 < p.2.outputAmount)) :=
  List.perm_insertionSort _ _

theorem rankedEntries_map_snd_perm (l : List OnChainQuote) :
    ((rankedEntries l).map Prod.snd).Perm
      (l.filter fun q => q.success && decide (0 < q.outputAmount)) := by
  have h1 := (rankedEntries_perm l).map Prod.snd
  rwa [filter_tagFrom_map_snd (fun q => q.success && decide (0 < q.outputAmount)) 0 l] at h1

theorem mem_rankedEntries (l : List OnChainQuote) {p : ℕ × OnChainQuote}
    (hp : p ∈ rankedEntries l) :
    p.2.success = true ∧ 0 < p.2.outputAmount ∧ p.2 ∈ l := by
  have hmem := (rankedEntries_perm l).subset hp
  have hpred := List.of_mem_filter hmem
  have hin := List.mem_of_mem_filter hmem
  have hsnd : p.2 ∈ l := by
    have := List.mem_map_of_mem Prod.snd hin
    rwa [tagFrom_map_snd] at this
  rcases (Bool.and_eq_true _ _).mp hpred with ⟨hs, hd⟩
  exact ⟨hs, of_decide_eq_true hd, hsnd⟩

theorem mem_rankedEntries_of_mem (l : List OnChainQuote) {q : OnChainQuote}
    (hq : q ∈ l) (hs : q.success = true) (hpos : 0 < q.outputAmount) :
    ∃ i, (i, q) ∈ rankedEntries l := by
  rcases List.mem_iff_getElem.mp hq with ⟨i, hi, rfl⟩
  refine ⟨i, ((rankedEntries_perm l).mem_iff).mpr ?_⟩
  refine List.mem_filter.mpr ⟨?_, ?_⟩
  · have := mem_tagFrom_of_getElem 0 l i hi
    simpa using this
  · simp [hs, hpos]

theorem sorted_head_max {x : ℕ × OnChainQuote} {xs : List (ℕ × OnChainQuote)}
    (h : List.Sorted quoteGE (x :: xs)) :
    ∀ p ∈ x :: xs, p.2.outputAmount ≤ x.2.outputAmount := by
  intro p hp
  rcases List.mem_cons.mp hp with rfl | hp'
  · exact le_refl _
  · exact List.rel_of_sorted_cons h p hp'

theorem sorted_getLast_min :
    ∀ (s : List (ℕ × OnChainQuote)) (hs : s ≠ []), List.Sorted quoteGE s →
      ∀ p ∈ s, (s.getLast hs).2.outputAmount ≤ p.2.outputAmount := by
  intro s
  induction s with
  | nil => intro hs; exact absurd rfl hs
  | cons y ys ih =>
    intro hs hsort p hp
    cases ys with
    | nil =>
      have : p = y := by simpa using hp
      subst this
      simp [List.getLast]
    | cons z zs =>
      have hne : z :: zs ≠ [] := List.cons_ne_nil z zs
      have hlast : (y :: z :: zs).getLast hs = (z :: zs).getLast hne :=
        List.getLast_cons hne
      rcases List.mem_cons.mp hp with rfl | hp'
      · rw [hlast]
        exact List.rel_of_sorted_cons hsort _ (List.getLast_mem hne)
      · rw [hlast]
        exact ih hne hsort.of_cons p hp'

theorem calculateRankings_eq_map (l : List OnChainQuote) (x : ℕ × OnChainQuote)
    (xs : List (ℕ × OnChainQuote)) (h : rankedEntries l = x :: xs) :
    calculateRankings l = (tagFrom 0 (x :: xs)).map fun kp =>
      { rank := kp.1 + 1, pool := kp.2.2.pool, quote := kp.2.2,
        priceAdvantage := priceAdvantageCalc x.2.outputAmount
          (((x :: xs).getLast (List.cons_ne_nil x xs)).2.outputAmount)
          kp.2.2.outputAmount } := by
  simp [calculateRankings, h]

theorem length_calculateRankings (l : List OnChainQuote) :
    (calculateRankings l).length = (rankedEntries l).length := by
  cases h : rankedEntries l with
  | nil => simp [calculateRankings, h]
  | cons x xs => simp [calculateRankings_eq_map l x xs h, length_tagFrom]

theorem calculateRankings_map_quote (l : List OnChainQuote) :
    (calculateRankings l).map (fun r => r.quote) = (rankedEntries l).map Prod.snd := by
  cases h : rankedEntries l with
  | nil => simp [calculateRankings, h]
  | cons x xs =>
    rw [calculateRankings_eq_map l x xs h, List.map_map]
    exact tagFrom_map_comp Prod.snd 0 (x :: xs)

theorem calculateRankings_map_rank (l : List OnChainQuote) :
    (calculateRankings l).map (fun r => r.rank) =
      List.range' 1 (rankedEntries l).length := by
  cases h : rankedEntries l with
  | nil => simp [calculateRankings, h]
  | cons x xs =>
    rw [calculateRankings_eq_map l x xs h, List.map_map]
    simpa [Function.comp] using map_fst_succ_tagFrom 0 (x :: xs)

theorem priceAdvantageCalc_nonneg_le (b w c : ℤ) :
    0 ≤ priceAdvantageCalc b w c ∧ priceAdvantageCalc b w c ≤ 1000 := by
  unfold priceAdvantageCalc
  split
  · split
    · norm_num
    · exact ⟨le_max_left 0 _, max_le (by norm_num) (min_le_right _ _)⟩
  · norm_num

/-! ### Auxiliary helpers for the claim statements -/

theorem snd_mem_of_mem_tagFrom {α : Type} {n : ℕ} {l : List α} {p : ℕ × α}
    (hp : p ∈ tagFrom n l) : p.2 ∈ l := by
  have := List.mem_map_of_mem Prod.snd hp
  rwa [tagFrom_map_snd] at this

/-- The output amount of the worst (last) ranked entry, `0` when nothing
ranks; the reference value of the noise-snapping check. -/
def worstRankedOutput (quotes : List OnChainQuote) : ℤ :=
  ((rankedEntries quotes).getLast?.map fun p => p.2.outputAmount).getD 0

/-- Every integer is at distance ≥ 1/2 from `q` unless it is `jsRound q`,
which is at distance ≤ 1/2: `jsRound q` is a nearest integer to `q`. -/
theorem jsRound_nearest (q : ℚ) (k : ℤ) :
    |(jsRound q : ℚ) - q| ≤ |(k : ℚ) - q| := by
  by_cases hk : k = jsRound q
  · rw [hk]
  have h1 : (jsRound q : ℚ) ≤ q + 1 / 2 := Int.floor_le _
  have h2 : q + 1 / 2 < jsRound q + 1 := Int.lt_floor_add_one _
  have habs : |(jsRound q : ℚ) - q| ≤ 1 / 2 := abs_le.mpr ⟨by linarith, by linarith⟩
  have hhalf : 1 / 2 ≤ |(k : ℚ) - q| := by
    rcases lt_or_gt_of_ne hk with hlt | hgt
    · have hk0 : k + 1 ≤ jsRound q := hlt
      have hk' : (k : ℚ) + 1 ≤ (jsRound q : ℚ) := by exact_mod_cast hk0
      have : 1 / 2 ≤ q - (k : ℚ) := by linarith
      linarith [neg_le_abs ((k : ℚ) - q)]
    · have hk0 : jsRound q + 1 ≤ k := hgt
      have hk' : (jsRound q : ℚ) + 1 ≤ (k : ℚ) := by exact_mod_cast hk0
      have : 1 / 2 ≤ (k : ℚ) - q := by linarith
      linarith [le_abs_self ((k : ℚ) - q)]
  exact le_trans habs hhalf

/-! ### Claim theorems -/

/-- Fixture: a small pool / token pair used to instantiate the theorems on
concrete inputs. -/
def wPool : PoolInfo :=
  { address := "0x0001", name := "W/U 0.05%", dex := "uniswap_v2", network := "eth",
    fee_tier := some "500", volume_24h := 0, liquidity_usd := 0,
    tokens := ⟨⟨"0xbase", "WETH", 18⟩, ⟨"0xquote", "USDT", 6⟩⟩ }

/-- Fixture: token pair. -/
def wPair : TokenPair :=
  { id := "weth-usdt", name := "WETH/USDT", sellToken := ⟨"0xbase", "WETH", 18⟩,
    buyToken := ⟨"0xquote", "USDT", 6⟩, sellAmount := 100 }

/-- Fixture: an all-failing chain oracle. -/
def wChainErr : ChainOracle :=
  { v2AmountsOut := fun _ _ => .error "network error"
    v3Quote := fun _ _ => .error "network error"
    v4Quote := fun _ _ => .error "network error"
    curveGetDy := fun _ _ => .error "network error"
    fluidRealPriceImpact := fun _ _ => .error "network error"
    fluidLiveQuote := fun _ _ => .error "network error"
    zeroXQuote := fun _ => none }

/-- Unfolding step of `executeWithRetry` for a successful call. -/
theorem executeWithRetry_ok {α : Type} (calls : ℕ → Except RpcError α)
    (attempt : ℕ) (v : α) (h : calls attempt = .ok v) :
    executeWithRetry calls attempt = (.ok v, []) := by
  rw [executeWithRetry, h]

theorem executeWithRetry_stop {α : Type} (calls : ℕ → Except RpcError α)
    (attempt : ℕ) (e : RpcError) (h : calls attempt = .error e)
    (hstop : ¬ (isRateLimitSignal e ∧ attempt < retryDelays.length)) :
    executeWithRetry calls attempt = (.error e, []) := by
  rw [executeWithRetry, h]
  exact dif_neg hstop

theorem executeWithRetry_backoff {α : Type} (calls : ℕ → Except RpcError α)
    (attempt : ℕ) (e : RpcError) (h : calls attempt = .error e)
    (hrl : isRateLimitSignal e) (hlt : attempt < retryDelays.length) :
    executeWithRetry calls attempt =
      ((executeWithRetry calls (attempt + 1)).1,
        retryDelays.get ⟨attempt, hlt⟩ :: (executeWithRetry calls (attempt + 1)).2) := by
  rw [executeWithRetry, h]
  exact dif_pos ⟨hrl, hlt⟩

/-- C6: a non-rate-limit error propagates immediately with no retry; a
rate-limit error (status 429 or `RATE_LIMIT_EXCEEDED`) is retried with the
backoff ladder 1s, 2s, 4s, 8s, 16s, a successful retry returns its value,
and once all 5 retries fail rate-limited (6 calls total) the underlying
error surfaces to the caller. -/
theorem executeWithRetry_spec {α : Type} (calls : ℕ → Except RpcError α) :
    (∀ e, calls 0 = .error e → ¬ isRateLimitSignal e →
        executeWithRetry calls 0 = (.error e, [])) ∧
    (∀ e v, calls 0 = .error e → isRateLimitSignal e → calls 1 = .ok v →
        executeWithRetry calls 0 = (.ok v, [1000])) ∧
    ((∀ n, n ≤ 5 → ∃ en, calls n = .error en ∧ isRateLimitSignal en) →
        ∃ e5, calls 5 = .error e5 ∧
          executeWithRetry calls 0 = (.error e5, [1000, 2000, 4000, 8000, 16000])) := by
  refine ⟨?_, ?_, ?_⟩
  · intro e h0 hnr
    exact executeWithRetry_stop calls 0 e h0 fun hc => hnr hc.1
  · intro e v h0 hrl h1
    rw [executeWithRetry_backoff calls 0 e h0 hrl (by norm_num [retryDelays]),
      executeWithRetry_ok calls 1 v h1]
    rfl
  · intro h
    obtain ⟨e0, h0, r0⟩ := h 0 (by norm_num)
    obtain ⟨e1, h1, r1⟩ := h 1 (by norm_num)
    obtain ⟨e2, h2, r2⟩ := h 2 (by norm_num)
    obtain ⟨e3, h3, r3⟩ := h 3 (by norm_num)
    obtain ⟨e4, h4, r4⟩ := h 4 (by norm_num)
    obtain ⟨e5, h5, r5⟩ := h 5 (by norm_num)
    have s5 : executeWithRetry calls 5 = (.error e5, []) :=
      executeWithRetry_stop calls 5 e5 h5 fun hc => by
        exact absurd hc.2 (by norm_num [retryDelays])
    have s4 : executeWithRetry calls 4 = (.error e5, [16000]) := by
      rw [executeWithRetry_backoff calls 4 e4 h4 r4 (by norm_num [retryDelays]), s5]
      rfl
    have s3 : executeWithRetry calls 3 = (.error e5, [8000, 16000]) := by
      rw [executeWithRetry_backoff calls 3 e3 h3 r3 (by norm_num [retryDelays]), s4]
      rfl
    have s2 : executeWithRetry calls 2 = (.error e5, [4000, 8000, 16000]) := by
      rw [executeWithRetry_backoff calls 2 e2 h2 r2 (by norm_num [retryDelays]), s3]
      rfl
    have s1 : executeWithRetry calls 1 = (.error e5, [2000, 4000, 8000, 16000]) := by
      rw [executeWithRetry_backoff calls 1 e1 h1 r1 (by norm_num [retryDelays]), s2]
      rfl
    have s0 : executeWithRetry calls 0 = (.error e5, [1000, 2000, 4000, 8000, 16000]) := by
      rw [executeWithRetry_backoff calls 0 e0 h0 r0 (by norm_num [retryDelays]), s1]
      rfl
    exact ⟨e5, h5, s0⟩

/-- Fixture: call sequence hitting one rate limit then succeeding. -/
def wCalls : ℕ → Except RpcError ℕ :=
  fun n => if n = 0 then .error ⟨some 429, none⟩ else .ok 99

/-- C6 witness: evaluating the retry behaviour on a concrete call
sequence. -/
theorem executeWithRetry_spec_witness :
    executeWithRetry wCalls 0 = (.ok 99, [1000]) :=
  (executeWithRetry_spec wCalls).2.1 ⟨some 429, none⟩ 99 rfl (Or.inl rfl) rfl

/-- C9 counterexample: with headline `buyAmount = 100` and aggregator fee
`5`, the engine reports `105` — the fee is added back onto the headline
amount, not excluded from it (`100 - 5 = 95`, and not `100` either). -/
theorem calculateNetQuoteAmount_counterexample :
    calculateNetQuoteAmount 100 (some 5) = 105 ∧
    calculateNetQuoteAmount 100 (some 5) ≠ 100 - 5 ∧
    calculateNetQuoteAmount 100 (some 5) ≠ 100 := by
  refine ⟨rfl, by decide, by decide⟩

/-- C9 amended: the reported amount is the aggregator's headline
`buyAmount` with the aggregator's fee added back (the gross, fee-inclusive
amount used for comparison against single-pool quotes); when the fee is
absent or zero the reported amount is `buyAmount` unchanged. -/
theorem calculateNetQuoteAmount_amended (buyAmount : ℤ) (fee : Option ℤ) :
    (fee = none → calculateNetQuoteAmount buyAmount fee = buyAmount) ∧
    (fee = some 0 → calculateNetQuoteAmount buyAmount fee = buyAmount) ∧
    (∀ f, fee = some f → f ≠ 0 →
      calculateNetQuoteAmount buyAmount fee = buyAmount + f) := by
  refine ⟨?_, ?_, ?_⟩
  · rintro rfl; rfl
  · rintro rfl; rfl
  · rintro f rfl hf
    simp [calculateNetQuoteAmount, hf]

/-- C9 witness: the amended behaviour evaluated on concrete amounts. -/
theorem calculateNetQuoteAmount_amended_witness :
    calculateNetQuoteAmount 1000 (some 7) = 1007 ∧
    calculateNetQuoteAmount 1000 none = 1000 :=
  ⟨(calculateNetQuoteAmount_amended 1000 (some 7)).2.2 7 rfl (by decide),
   (calculateNetQuoteAmount_amended 1000 none).1 rfl⟩

/-- C4 counterexample: raw tick `887252` with spacing `60` (a legal
on-chain tick for the 0.3% fee tier): rounding to the nearest multiple
gives `887280`, clamping pulls it back to `887272`, which is **not** a
multiple of `60` — `aligned % S == 0` fails at the clamp boundary. -/
theorem alignTickManual_counterexample :
    alignTickManual 887252 60 = 887272 ∧ ¬ ((887272 : ℤ) % 60 = 0) := by
  constructor
  · rw [alignTickManual, nearestAlignedTick]
    have h : jsRound (((887252 : ℤ) : ℚ) / ((60 : ℤ) : ℚ)) = 14788 := by
      norm_num [jsRound]
    rw [h]
    norm_num [MIN_TICK, MAX_TICK]
  · decide

/-- C4 amended: the manual alignment produces the clamp to
`[-887272, 887272]` of the multiple of `S` nearest to `T`; the pre-clamp
value is always divisible by `S` and nearest among all multiples, the
result is always within the tick bounds, and `aligned % S == 0` holds
whenever the nearest multiple already lies within the bounds (clamping at
a boundary can break divisibility, as the counterexample shows). -/
theorem alignTickManual_amended (T S : ℤ) (hS : 0 < S) :
    (∀ k : ℤ, |nearestAlignedTick T S - T| ≤ |k * S - T|) ∧
    S ∣ nearestAlignedTick T S ∧
    MIN_TICK ≤ alignTickManual T S ∧ alignTickManual T S ≤ MAX_TICK ∧
    (MIN_TICK ≤ nearestAlignedTick T S → nearestAlignedTick T S ≤ MAX_TICK →
      alignTickManual T S = nearestAlignedTick T S ∧ alignTickManual T S % S = 0) := by
  have hS0 : (S : ℚ) ≠ 0 := Int.cast_ne_zero.mpr (ne_of_gt hS)
  have hSpos : (0 : ℚ) < (S : ℚ) := by exact_mod_cast hS
  refine ⟨?_, ⟨jsRound ((T : ℚ) / (S : ℚ)), mul_comm _ _⟩, le_max_left _ _,
    max_le (by norm_num [MIN_TICK, MAX_TICK]) (min_le_left _ _), ?_⟩
  · intro k
    have key : |(nearestAlignedTick T S : ℚ) - (T : ℚ)| ≤ |((k : ℚ) * S - T)| := by
      have hT : ((T : ℚ) / S) * S = (T : ℚ) := div_mul_cancel₀ _ hS0
      have e1 : (nearestAlignedTick T S : ℚ) - (T : ℚ)
          = ((jsRound ((T : ℚ) / S) : ℚ) - (T : ℚ) / S) * S := by
        push_cast [nearestAlignedTick]
        rw [sub_mul, hT]
      have e2 : (k : ℚ) * S - (T : ℚ) = ((k : ℚ) - (T : ℚ) / S) * S := by
        rw [sub_mul, hT]
      rw [e1, e2, abs_mul, abs_mul, abs_of_pos hSpos]
      exact mul_le_mul_of_nonneg_right (jsRound_nearest ((T : ℚ) / S) k) (le_of_lt hSpos)
    have goalQ : ((|nearestAlignedTick T S - T| : ℤ) : ℚ) ≤ ((|k * S - T| : ℤ) : ℚ) := by
      push_cast
      exact key
    exact_mod_cast goalQ
  · intro hlo hhi
    have h1 : min MAX_TICK (nearestAlignedTick T S) = nearestAlignedTick T S :=
      min_eq_right hhi
    have h2 : alignTickManual T S = nearestAlignedTick T S := by
      rw [alignTickManual, h1]
      exact max_eq_right hlo
    refine ⟨h2, ?_⟩
    rw [h2, nearestAlignedTick]
    exact Int.mul_emod_left _ _

/-- C4 witness: the amended alignment evaluated at `T = 7`, `S = 10`
(nearest multiple `10`, comfortably within bounds, divisible). -/
theorem alignTickManual_amended_witness :
    alignTickManual 7 10 = nearestAlignedTick 7 10 ∧ alignTickManual 7 10 % 10 = 0 := by
  have hne : nearestAlignedTick 7 10 = 10 := by
    have h : jsRound ((7 : ℚ) / 10) = 1 := by norm_num [jsRound]
    norm_num [nearestAlignedTick, h]
  exact (alignTickManual_amended 7 10 (by norm_num)).2.2.2.2
    (by rw [hne]; norm_num [MIN_TICK]) (by rw [hne]; norm_num [MAX_TICK])

/-- Fixture: a Balancer-tagged pool converting 18 decimals to 6. -/
def wPoolBalancer : PoolInfo :=
  { address := "0xbbb", name := "Bal USDe/USDT", dex := "balancer", network := "eth",
    fee_tier := none, volume_24h := 0, liquidity_usd := 0,
    tokens := ⟨⟨"0xbase", "USDe", 18⟩, ⟨"0xquote", "USDT", 6⟩⟩ }

/-- C3 counterexample: quoting 1 wei of an 18-decimal token through the
Balancer estimator yields `outputAmount = 0` (the decimal-adjusted 1:1
division truncates to zero) with `success = true` — a zero-output quote
marked successful. -/
theorem zeroOutput_counterexample :
    (getQuoteForPoolWithAmount wChainErr wPoolBalancer 1 wPair).outputAmount = 0 ∧
    (getQuoteForPoolWithAmount wChainErr wPoolBalancer 1 wPair).success = true := by
  constructor <;> decide

/-- C3 amended: the implication holds in the other direction — every quote
produced through the error path has `success = false` and
`outputAmount = 0` — and a zero-output quote, even when marked successful,
never enters `rankings`; but a quoter returning 0 without throwing does
produce a successful zero-output quote. -/
theorem zeroOutput_amended :
    (∀ (chain : ChainOracle) (pool : PoolInfo) (inputAmount : ℤ)
        (tokenPair : TokenPair) (e : String),
      pool.dex ≠ "zerox" →
      quoterDispatch chain pool inputAmount = .error e →
      (getQuoteForPoolWithAmount chain pool inputAmount tokenPair).success = false ∧
      (getQuoteForPoolWithAmount chain pool inputAmount tokenPair).outputAmount = 0) ∧
    (∀ (l : List OnChainQuote) (r : PoolRanking), r ∈ calculateRankings l →
      0 < r.quote.outputAmount ∧ r.quote.success = true) := by
  constructor
  · intro chain pool inputAmount tokenPair e hdex herr
    rw [getQuoteForPoolWithAmount, if_neg hdex, herr]
    exact ⟨rfl, rfl⟩
  · intro l r hr
    cases h : rankedEntries l with
    | nil => rw [calculateRankings, h] at hr; simp at hr
    | cons x xs =>
      rw [calculateRankings_eq_map l x xs h] at hr
      rcases List.mem_map.mp hr with ⟨kp, hkp, rfl⟩
      have hmem : kp.2 ∈ rankedEntries l := by
        rw [h]; exact snd_mem_of_mem_tagFrom hkp
      have hfacts := mem_rankedEntries l hmem
      exact ⟨hfacts.2.1, hfacts.1⟩

/-- C3 witness: the amended error-path behaviour on an unsupported
protocol tag. -/
theorem zeroOutput_amended_witness :
    (getQuoteForPoolWithAmount wChainErr
        { wPoolBalancer with dex := "unknown_dex" } 5 wPair).success = false ∧
    (getQuoteForPoolWithAmount wChainErr
        { wPoolBalancer with dex := "unknown_dex" } 5 wPair).outputAmount = 0 :=
  zeroOutput_amended.1 wChainErr { wPoolBalancer with dex := "unknown_dex" } 5 wPair
    "Unsupported DEX: unknown_dex" (by decide) rfl

/-! ### C5: Fluid strategy ordering -/

/-- Fixture: the enhanced USDe→USDT Fluid pool. -/
def wPoolFluid : PoolInfo :=
  { address := "0xf063bd202e45d6b2843102cb4ece339026645d4a", name := "Fluid USDe/USDT",
    dex := "fluid", network := "eth", fee_tier := none, volume_24h := 0,
    liquidity_usd := 0, tokens := ⟨⟨"0xusde", "USDe", 18⟩, ⟨"0xusdt", "USDT", 6⟩⟩ }

/-- Fixture: a chain where both network-backed Fluid tiers would succeed,
with distinguishable results. -/
def wChainFluid : ChainOracle :=
  { v2AmountsOut := fun _ _ => .error "unused"
    v3Quote := fun _ _ => .error "unused"
    v4Quote := fun _ _ => .error "unused"
    curveGetDy := fun _ _ => .error "unused"
    fluidRealPriceImpact := fun _ _ => .ok 7
    fluidLiveQuote := fun _ _ => .ok 42
    zeroXQuote := fun _ => none }

/-- C5 counterexample: with both tiers able to succeed, the pipeline
attempts the reserve-based price-impact tier first and returns its result
(7); the direct swap simulation decoding `FluidDexSwapResult`
(`getFluidLiveQuote`, result 42) is never attempted — the claim's ordering
(direct simulation first) does not match the code. -/
theorem getFluidQuote_counterexample :
    getFluidQuote wChainFluid wPoolFluid 1000000 = (7, [FluidStrategy.realPriceImpact]) ∧
    FluidStrategy.liveQuote ∉ (getFluidQuote wChainFluid wPoolFluid 1000000).2 := by
  constructor <;> decide

/-- C5 amended: for the designated USDe→USDT pool the tiers run in the
order reserve-based price impact, then direct swap simulation, then static
estimation, the first success returning with no later tier attempted; all
other Fluid pools go straight to the (total, never-throwing) estimation
tier. -/
theorem getFluidQuote_amended (chain : ChainOracle) (pool : PoolInfo) (inputAmount : ℤ) :
    (isEnhancedFluidPool pool = true →
      (∀ v, chain.fluidRealPriceImpact pool inputAmount = .ok v →
        getFluidQuote chain pool inputAmount = (v, [.realPriceImpact])) ∧
      (∀ e v, chain.fluidRealPriceImpact pool inputAmount = .error e →
        chain.fluidLiveQuote pool inputAmount = .ok v →
        getFluidQuote chain pool inputAmount = (v, [.realPriceImpact, .liveQuote])) ∧
      (∀ e e', chain.fluidRealPriceImpact pool inputAmount = .error e →
        chain.fluidLiveQuote pool inputAmount = .error e' →
        getFluidQuote chain pool inputAmount =
          (getFluidEstimatedQuote pool inputAmount,
            [.realPriceImpact, .liveQuote, .estimation]))) ∧
    (isEnhancedFluidPool pool = false →
      getFluidQuote chain pool inputAmount =
        (getFluidEstimatedQuote pool inputAmount, [.estimation])) := by
  constructor
  · intro hpool
    refine ⟨?_, ?_, ?_⟩
    · intro v hv
      rw [getFluidQuote, if_pos hpool, hv]
    · intro e v he hv
      rw [getFluidQuote, if_pos hpool, he, hv]
    · intro e e' he he'
      rw [getFluidQuote, if_pos hpool, he, he']
  · intro hpool
    rw [getFluidQuote, if_neg (by simp [hpool])]

/-- C5 witness: the amended tier behaviour evaluated on the enhanced
pool with a failing first tier and a succeeding second tier. -/
theorem getFluidQuote_amended_witness :
    getFluidQuote
      { wChainFluid with fluidRealPriceImpact := fun _ _ => .error "revert" }
      wPoolFluid 500 = (42, [FluidStrategy.realPriceImpact, FluidStrategy.liveQuote]) :=
  ((getFluidQuote_amended
      { wChainFluid with fluidRealPriceImpact := fun _ _ => .error "revert" }
      wPoolFluid 500).1 (by decide)).2.1 "revert" 42 rfl rfl

/-! ### C1, C7, C8: the ranking engine -/

theorem calculateRankings_getElem_rank (l : List OnChainQuote) (k : ℕ)
    (hk : k < (calculateRankings l).length) :
    ((calculateRankings l)[k]).rank = k + 1 := by
  cases h : rankedEntries l with
  | nil =>
    exfalso
    have hk2 := hk
    rw [length_calculateRankings, h] at hk2
    simp at hk2
  | cons x xs =>
    have hk2 : k < (x :: xs).length := by
      have hk3 := hk
      rwa [length_calculateRankings, h] at hk3
    simp only [calculateRankings_eq_map l x xs h, List.getElem_map]
    rw [getElem_tagFrom 0 (x :: xs) k hk2 (by simpa [length_tagFrom] using hk2)]
    simp

theorem calculateRankings_getElem_quote (l : List OnChainQuote) (k : ℕ)
    (hk : k < (calculateRankings l).length) (hk' : k < (rankedEntries l).length) :
    ((calculateRankings l)[k]).quote = ((rankedEntries l)[k]).2 := by
  revert hk'
  cases h : rankedEntries l with
  | nil =>
    intro hk'
    exfalso
    simp at hk'
  | cons x xs =>
    intro hk'
    simp only [calculateRankings_eq_map l x xs h, List.getElem_map]
    rw [getElem_tagFrom 0 (x :: xs) k hk' (by simpa [length_tagFrom] using hk')]

/-- C1: for every quote list, `calculateRankings` returns exactly the
successful positive-output quotes (as a multiset), sorted descending by
`outputAmount`, with ranks forming the contiguous sequence `1..N` and
every `priceAdvantage` within `[0, 1000]`. -/
theorem calculateRankings_spec (l : List OnChainQuote) :
    ((calculateRankings l).map fun r => r.quote).Perm
        (l.filter fun q => q.success && decide (0 < q.outputAmount)) ∧
    List.Sorted (fun a b : ℤ => b ≤ a)
        ((calculateRankings l).map fun r => r.quote.outputAmount) ∧
    ((calculateRankings l).map fun r => r.rank) =
        List.range' 1 (calculateRankings l).length ∧
    ∀ r ∈ calculateRankings l, 0 ≤ r.priceAdvantage ∧ r.priceAdvantage ≤ 1000 := by
  refine ⟨?_, ?_, ?_, ?_⟩
  · rw [calculateRankings_map_quote]
    exact rankedEntries_map_snd_perm l
  · have h1 : (calculateRankings l).map (fun r => r.quote.outputAmount)
        = (rankedEntries l).map fun p => p.2.outputAmount := by
      have h2 := congrArg (List.map fun q : OnChainQuote => q.outputAmount)
        (calculateRankings_map_quote l)
      simpa [List.map_map, Function.comp] using h2
    rw [h1]
    exact List.Pairwise.map _ (fun a b hab => hab) (rankedEntries_sorted l)
  · rw [calculateRankings_map_rank, length_calculateRankings]
  · intro r hr
    cases h : rankedEntries l with
    | nil => rw [calculateRankings, h] at hr; simp at hr
    | cons x xs =>
      rw [calculateRankings_eq_map l x xs h] at hr
      rcases List.mem_map.mp hr with ⟨kp, _, rfl⟩
      exact priceAdvantageCalc_nonneg_le _ _ _

/-- Fixture: a successful quote with a given output amount. -/
def wQuote (out : ℤ) : OnChainQuote :=
  { pool := wPool, inputAmount := 100, outputAmount := out, pricePerToken := 0,
    executionPrice := 0, success := true }

/-- C1 witness: ranks and price-advantage bounds evaluated on a concrete
two-quote list. -/
theorem calculateRankings_spec_witness :
    ((calculateRankings [wQuote 5, wQuote 9]).map fun r => r.rank) =
        List.range' 1 (calculateRankings [wQuote 5, wQuote 9]).length ∧
    (0 ≤ ((calculateRankings [wQuote 5, wQuote 9]).head (by decide)).priceAdvantage ∧
      ((calculateRankings [wQuote 5, wQuote 9]).head (by decide)).priceAdvantage ≤ 1000) :=
  ⟨(calculateRankings_spec [wQuote 5, wQuote 9]).2.2.1,
   (calculateRankings_spec [wQuote 5, wQuote 9]).2.2.2 _ (List.head_mem _)⟩

/-- C7: two successful positive-output quotes with equal `outputAmount`
rank by stable input order — the earlier quote in the input list receives
the smaller (better) rank. -/
theorem calculateRankings_tie_stable (l : List OnChainQuote) (i j : ℕ)
    (hij : i < j) (hj : j < l.length)
    (hsi : (l[i]).success = true)
    (hpi : 0 < (l[i]).outputAmount)
    (hsj : (l[j]).success = true)
    (hpj : 0 < (l[j]).outputAmount)
    (heq : (l[i]).outputAmount = (l[j]).outputAmount) :
    ∃ (p q : ℕ) (hp : p < (calculateRankings l).length)
      (hq : q < (calculateRankings l).length),
      p < q ∧
      ((calculateRankings l)[p]).quote = l[i] ∧
      ((calculateRankings l)[q]).quote = l[j] ∧
      ((calculateRankings l)[p]).rank < ((calculateRankings l)[q]).rank := by
  have hi : i < l.length := lt_trans hij hj
  have hmi : (i, l[i]) ∈ rankedEntries l := by
    apply (rankedEntries_perm l).mem_iff.mpr
    refine List.mem_filter.mpr ⟨?_, by simp [hsi, hpi]⟩
    simpa using mem_tagFrom_of_getElem 0 l i hi
  have hmj : (j, l[j]) ∈ rankedEntries l := by
    apply (rankedEntries_perm l).mem_iff.mpr
    refine List.mem_filter.mpr ⟨?_, by simp [hsj, hpj]⟩
    simpa using mem_tagFrom_of_getElem 0 l j hj
  obtain ⟨p, hp, hpe⟩ := List.getElem_of_mem hmi
  obtain ⟨q, hq, hqe⟩ := List.getElem_of_mem hmj
  have hpw := List.pairwise_iff_getElem.mp (rankedEntries_pairwise_strict l)
  have hplt : p < q := by
    rcases lt_trichotomy p q with hlt | hEq | hgt
    · exact hlt
    · exfalso
      subst hEq
      have hij' : (i, l[i]) = (j, l[j]) := hpe.symm.trans hqe
      have : i = j := congrArg Prod.fst hij'
      omega
    · exfalso
      have hstr := hpw q p hq hp hgt
      rw [hqe, hpe] at hstr
      rcases hstr with hlt' | ⟨hout, hidx⟩
      · simp only at hlt'
        omega
      · simp only at hidx
        omega
  have hp' : p < (calculateRankings l).length := by
    rw [length_calculateRankings]; exact hp
  have hq' : q < (calculateRankings l).length := by
    rw [length_calculateRankings]; exact hq
  refine ⟨p, q, hp', hq', hplt, ?_, ?_, ?_⟩
  · rw [calculateRankings_getElem_quote l p hp' hp]
    exact congrArg Prod.snd hpe
  · rw [calculateRankings_getElem_quote l q hq' hq]
    exact congrArg Prod.snd hqe
  · rw [calculateRankings_getElem_rank l p hp', calculateRankings_getElem_rank l q hq']
    omega

/-- C7 witness: the tie-break on a concrete list of two equal-output
quotes. -/
theorem calculateRankings_tie_stable_witness :
    ∃ (p q : ℕ) (hp : p < (calculateRankings [wQuote 7, wQuote 7]).length)
      (hq : q < (calculateRankings [wQuote 7, wQuote 7]).length),
      p < q ∧
      ((calculateRankings [wQuote 7, wQuote 7])[p]).quote = wQuote 7 ∧
      ((calculateRankings [wQuote 7, wQuote 7])[q]).quote = wQuote 7 ∧
      ((calculateRankings [wQuote 7, wQuote 7])[p]).rank <
        ((calculateRankings [wQuote 7, wQuote 7])[q]).rank :=
  calculateRankings_tie_stable [wQuote 7, wQuote 7] 0 1 (by decide) (by decide)
    (by decide) (by decide) (by decide) (by decide) (by decide)

/-- C8: any ranked quote whose relative difference from the worst-output
quote, `(out - worst) / worst`, is below the 0.01% threshold gets
`priceAdvantage = 0` (the code snaps on `|out - worst| / best < 0.0001`,
and `best ≥ worst` makes that weaker condition hold a fortiori). -/
theorem priceAdvantage_snap (l : List OnChainQuote) (r : PoolRanking)
    (hr : r ∈ calculateRankings l)
    (hsnap : ((r.quote.outputAmount : ℚ) - (worstRankedOutput l : ℚ))
        / (worstRankedOutput l : ℚ) < 1 / 10000) :
    r.priceAdvantage = 0 := by
  cases h : rankedEntries l with
  | nil => rw [calculateRankings, h] at hr; simp at hr
  | cons x xs =>
    rw [calculateRankings_eq_map l x xs h] at hr
    rcases List.mem_map.mp hr with ⟨kp, hkp, rfl⟩
    have hmem2 : kp.2 ∈ x :: xs := snd_mem_of_mem_tagFrom hkp
    have hmemR : kp.2 ∈ rankedEntries l := by rw [h]; exact hmem2
    have hsorted : List.Sorted quoteGE (x :: xs) := by
      rw [← h]; exact rankedEntries_sorted l
    have hlastR : (x :: xs).getLast (List.cons_ne_nil x xs) ∈ rankedEntries l := by
      rw [h]; exact List.getLast_mem _
    have hWpos : 0 < ((x :: xs).getLast (List.cons_ne_nil x xs)).2.outputAmount :=
      (mem_rankedEntries l hlastR).2.1
    have hcur_ge : ((x :: xs).getLast (List.cons_ne_nil x xs)).2.outputAmount ≤
        kp.2.2.outputAmount :=
      sorted_getLast_min (x :: xs) (List.cons_ne_nil x xs) hsorted kp.2 hmem2
    have hcur_le : kp.2.2.outputAmount ≤ x.2.outputAmount :=
      sorted_head_max hsorted kp.2 hmem2
    have hworst : worstRankedOutput l =
        ((x :: xs).getLast (List.cons_ne_nil x xs)).2.outputAmount := by
      rw [worstRankedOutput, h, List.getLast?_eq_getLast _ (List.cons_ne_nil x xs)]
      rfl
    simp only at hsnap ⊢
    rw [hworst] at hsnap
    set W := ((x :: xs).getLast (List.cons_ne_nil x xs)).2.outputAmount with hWdef
    set B := x.2.outputAmount with hBdef
    set cur := kp.2.2.outputAmount with hcurdef
    have hWQ : (0 : ℚ) < (W : ℚ) := by exact_mod_cast hWpos
    have hBQ : (0 : ℚ) < (B : ℚ) := by
      have : (0 : ℤ) < B := lt_of_lt_of_le hWpos (le_trans hcur_ge hcur_le)
      exact_mod_cast this
    have hWB : (W : ℚ) ≤ (B : ℚ) := by exact_mod_cast le_trans hcur_ge hcur_le
    have hnum : (0 : ℚ) ≤ (cur : ℚ) - (W : ℚ) := by
      have := sub_nonneg.mpr hcur_ge
      exact_mod_cast this
    have hcond : |(cur : ℚ) - (W : ℚ)| / (B : ℚ) < 1 / 10000 := by
      rw [abs_of_nonneg hnum]
      have hmono : ((cur : ℚ) - W) / B ≤ ((cur : ℚ) - W) / W := by gcongr
      exact lt_of_le_of_lt hmono hsnap
    show priceAdvantageCalc B W cur = 0
    rw [priceAdvantageCalc, if_pos hWpos, if_pos hcond]

/-- C8 witness: a concrete pair whose relative difference (1/100000) is
below the 0.01% threshold gets price advantage exactly 0. -/
theorem priceAdvantage_snap_witness :
    ((calculateRankings [wQuote 100000, wQuote 100001]).get
        ⟨0, by decide⟩).priceAdvantage = 0 :=
  priceAdvantage_snap [wQuote 100000, wQuote 100001] _
    (List.get_mem _ 0 (by decide)) (by
      have e1 : ((calculateRankings [wQuote 100000, wQuote 100001]).get
          ⟨0, by decide⟩).quote.outputAmount = 100001 := by decide
      have e2 : worstRankedOutput [wQuote 100000, wQuote 100001] = 100000 := by decide
      rw [e1, e2]
      norm_num)

/-! ### C2, C10: the orchestrator -/

/-- C2: one quote per supplied pool, in input order; a quoter failure is
converted into a failed quote (success = false, zero output, the error
message recorded) without aborting the batch; the empty pool list yields
`{quotes: [], bestQuote: null, rankings: []}`. -/
theorem simulateSwapsWithAmount_spec (chain : ChainOracle) (pools : List PoolInfo)
    (inputAmount : ℤ) (tokenPair : TokenPair) :
    (simulateSwapsWithAmount chain pools inputAmount tokenPair).quotes.length =
        pools.length ∧
    (∀ (k : ℕ) (p : PoolInfo), pools[k]? = some p →
      (simulateSwapsWithAmount chain pools inputAmount tokenPair).quotes[k]? =
        some (getQuoteForPoolWithAmount chain p inputAmount tokenPair)) ∧
    (∀ (k : ℕ) (p : PoolInfo) (e : String), pools[k]? = some p → p.dex ≠ "zerox" →
      quoterDispatch chain p inputAmount = .error e →
      ∃ q : OnChainQuote,
        (simulateSwapsWithAmount chain pools inputAmount tokenPair).quotes[k]? =
          some q ∧ q.success = false ∧ q.outputAmount = 0 ∧ q.error = some e) ∧
    (∀ (k : ℕ) (p : PoolInfo), pools[k]? = some p → p.dex = "zerox" →
      chain.zeroXQuote tokenPair = none →
      ∃ q : OnChainQuote,
        (simulateSwapsWithAmount chain pools inputAmount tokenPair).quotes[k]? =
          some q ∧ q.success = false ∧ q.outputAmount = 0 ∧
          q.error = some "ZeroX quote failed") ∧
    simulateSwapsWithAmount chain [] inputAmount tokenPair =
      { quotes := [], bestQuote := none, rankings := [] } := by
  refine ⟨?_, ?_, ?_, ?_, ?_⟩
  · simp [simulateSwapsWithAmount]
  · intro k p hk
    show (pools.map fun pool =>
      getQuoteForPoolWithAmount chain pool inputAmount tokenPair)[k]? = _
    rw [List.getElem?_map, hk]
    rfl
  · intro k p e hk hdex herr
    refine ⟨getQuoteForPoolWithAmount chain p inputAmount tokenPair, ?_, ?_⟩
    · show (pools.map fun pool =>
        getQuoteForPoolWithAmount chain pool inputAmount tokenPair)[k]? = _
      rw [List.getElem?_map, hk]
      rfl
    · rw [getQuoteForPoolWithAmount, if_neg hdex, herr]
      exact ⟨rfl, rfl, rfl⟩
  · intro k p hk hdex hnone
    refine ⟨getQuoteForPoolWithAmount chain p inputAmount tokenPair, ?_, ?_⟩
    · show (pools.map fun pool =>
        getQuoteForPoolWithAmount chain pool inputAmount tokenPair)[k]? = _
      rw [List.getElem?_map, hk]
      rfl
    · rw [getQuoteForPoolWithAmount, if_pos hdex, hnone]
      exact ⟨rfl, rfl, rfl⟩
  · rfl

/-- C2 witness: the per-pool behaviour on a one-pool list, and the empty
pool list result. -/
theorem simulateSwapsWithAmount_spec_witness :
    (simulateSwapsWithAmount wChainErr [wPoolBalancer] 100 wPair).quotes[0]? =
      some (getQuoteForPoolWithAmount wChainErr wPoolBalancer 100 wPair) ∧
    simulateSwapsWithAmount wChainErr [] 100 wPair =
      { quotes := [], bestQuote := none, rankings := [] } :=
  ⟨(simulateSwapsWithAmount_spec wChainErr [wPoolBalancer] 100 wPair).2.1 0
      wPoolBalancer rfl,
   (simulateSwapsWithAmount_spec wChainErr [] 100 wPair).2.2.2.2⟩

/-- C10: `bestQuote` is `null` exactly when `rankings` is empty, and
otherwise is the rank-1 entry's quote — a successful positive-output quote
whose output amount is maximal among all successful positive-output quotes
of the run. -/
theorem bestQuote_spec (chain : ChainOracle) (pools : List PoolInfo)
    (inputAmount : ℤ) (tokenPair : TokenPair) :
    ((simulateSwapsWithAmount chain pools inputAmount tokenPair).bestQuote = none ↔
      (simulateSwapsWithAmount chain pools inputAmount tokenPair).rankings = []) ∧
    (∀ hne : (simulateSwapsWithAmount chain pools inputAmount tokenPair).rankings ≠ [],
      (simulateSwapsWithAmount chain pools inputAmount tokenPair).bestQuote =
        some (((simulateSwapsWithAmount chain pools inputAmount
          tokenPair).rankings.head hne).quote) ∧
      ((simulateSwapsWithAmount chain pools inputAmount
          tokenPair).rankings.head hne).rank = 1 ∧
      ((simulateSwapsWithAmount chain pools inputAmount
          tokenPair).rankings.head hne).quote.success = true ∧
      0 < ((simulateSwapsWithAmount chain pools inputAmount
          tokenPair).rankings.head hne).quote.outputAmount ∧
      ∀ q ∈ (simulateSwapsWithAmount chain pools inputAmount tokenPair).quotes,
        q.success = true → 0 < q.outputAmount →
        q.outputAmount ≤ ((simulateSwapsWithAmount chain pools inputAmount
          tokenPair).rankings.head hne).quote.outputAmount) := by
  constructor
  · show (match calculateRankings _ with
        | [] => (none : Option OnChainQuote)
        | r :: _ => some r.quote) = none ↔ calculateRankings _ = []
    cases calculateRankings ((pools.map fun pool =>
        getQuoteForPoolWithAmount chain pool inputAmount tokenPair).filter
          fun q => q.success) with
    | nil => simp
    | cons r rs => simp
  · intro hne
    have hne' : calculateRankings ((pools.map fun pool =>
        getQuoteForPoolWithAmount chain pool inputAmount tokenPair).filter
          fun q => q.success) ≠ [] := hne
    cases hrk : calculateRankings ((pools.map fun pool =>
        getQuoteForPoolWithAmount chain pool inputAmount tokenPair).filter
          fun q => q.success) with
    | nil => exact absurd hrk hne'
    | cons r0 rs =>
      have hhead : (simulateSwapsWithAmount chain pools inputAmount
          tokenPair).rankings.head hne = r0 := by
        show (calculateRankings _).head _ = r0
        simp only [hrk]
        rfl
      rw [hhead]
      have hbest : (simulateSwapsWithAmount chain pools inputAmount
          tokenPair).bestQuote = some r0.quote := by
        show (match calculateRankings _ with
          | [] => (none : Option OnChainQuote)
          | r :: _ => some r.quote) = some r0.quote
        rw [hrk]
      cases hre : rankedEntries ((pools.map fun pool =>
          getQuoteForPoolWithAmount chain pool inputAmount tokenPair).filter
            fun q => q.success) with
      | nil =>
        exfalso
        rw [calculateRankings, hre] at hrk
        exact List.noConfusion hrk
      | cons x xs =>
        rw [calculateRankings_eq_map _ x xs hre, tagFrom, List.map_cons] at hrk
        have hr0 := (List.cons.injEq _ _ _ _).mp hrk |>.1
        have hxmem : x ∈ rankedEntries ((pools.map fun pool =>
            getQuoteForPoolWithAmount chain pool inputAmount tokenPair).filter
              fun q => q.success) := by
          rw [hre]
          exact List.mem_cons_self x xs
        have hxfacts := mem_rankedEntries _ hxmem
        refine ⟨hbest, ?_, ?_, ?_, ?_⟩
        · rw [← hr0]
        · rw [← hr0]
          exact hxfacts.1
        · rw [← hr0]
          exact hxfacts.2.1
        · intro q hq hqs hqpos
          rw [← hr0]
          show q.outputAmount ≤ x.2.outputAmount
          have hqf : q ∈ (pools.map fun pool =>
              getQuoteForPoolWithAmount chain pool inputAmount tokenPair).filter
                fun q => q.success := List.mem_filter.mpr ⟨hq, hqs⟩
          obtain ⟨i, hmem⟩ := mem_rankedEntries_of_mem _ hqf hqs hqpos
          rw [hre] at hmem
          have hsorted : List.Sorted quoteGE (x :: xs) := by
            rw [← hre]
            exact rankedEntries_sorted _
          exact sorted_head_max hsorted (i, q) hmem

/-- C10 witness: a one-pool run whose single successful quote is the best
quote with rank 1. -/
theorem bestQuote_spec_witness :
    ((simulateSwapsWithAmount wChainErr [wPoolBalancer] (10 ^ 13)
        wPair).rankings.head (by decide)).rank = 1 ∧
    0 < ((simulateSwapsWithAmount wChainErr [wPoolBalancer] (10 ^ 13)
        wPair).rankings.head (by decide)).quote.outputAmount :=
  ⟨((bestQuote_spec wChainErr [wPoolBalancer] (10 ^ 13) wPair).2 (by decide)).2.1,
   ((bestQuote_spec wChainErr [wPoolBalancer] (10 ^ 13) wPair).2 (by decide)).2.2.2.1⟩

end DexQuotes
